import Mathlib

/-!
# Verification of the MQTT player client (`PlayerClient.py`)

Shallow embedding of the message handler `on_message`, the input loop body
`user_input_control`, and the state projector `process_game_state`, together
with proofs of the specified properties.

JSON values decoded by `json.loads` are modelled by the inductive `Jval`;
Python runtime exceptions raised by the embedded operations are modelled by
`PyErr` through the `Except` monad.
-/

/-- A decoded JSON value (the possible results of `json.loads`). -/
inductive Jval where
  | null
  | bool (b : Bool)
  | num (n : Int)
  | str (s : String)
  | arr (elems : List Jval)
  | obj (fields : List (String × Jval))

/-- Kinds of Python runtime exception the embedded code can raise. -/
inductive PyErr where
  | typeError
  | valueError
  | keyError
  | indexError
  | attributeError
deriving Repr, DecidableEq

/-- First value bound to key `k` in a decoded JSON object (Python dicts have
unique keys; decoding keeps the first binding). -/
def dictGet (fields : List (String × Jval)) (k : String) : Option Jval :=
  (fields.find? (fun p => p.1 == k)).map Prod.snd

/-- Python `v.get(k, dflt)`: defined on dicts only; any other receiver has no
`get` attribute and raises `AttributeError`. -/
def pyGetDefault (v : Jval) (k : String) (dflt : Jval) : Except PyErr Jval :=
  match v with
  | .obj fs => .ok ((dictGet fs k).getD dflt)
  | _ => .error .attributeError

/-- Python `v[k]` for a string key `k`: dict lookup (`KeyError` when absent);
lists and strings reject string subscripts with `TypeError`. -/
def pyGetItem (v : Jval) (k : String) : Except PyErr Jval :=
  match v with
  | .obj fs =>
    match dictGet fs k with
    | some x => .ok x
    | none => .error .keyError
  | _ => .error .typeError

/-- Python sequence index resolution for a sequence of length `len`: an index
`i` with `-len ≤ i < len` resolves (negative indices count from the end);
anything else is `IndexError`. -/
def pyIndexNat? (len : Nat) (i : Int) : Option Nat :=
  if 0 ≤ i then
    if i < (len : Int) then some i.toNat else none
  else
    if -(len : Int) ≤ i then some (i + len).toNat else none

/-- Python `v[i]` for an integer index. -/
def pyIndex (v : Jval) (i : Int) : Except PyErr Jval :=
  match v with
  | .arr l =>
    match pyIndexNat? l.length i with
    | some n => .ok (l.getD n .null)
    | none => .error .indexError
  | .str s =>
    match pyIndexNat? s.length i with
    | some n => .ok (.str (String.singleton (s.data.getD n ' ')))
    | none => .error .indexError
  | .obj _ => .error .keyError
  | _ => .error .typeError

/-- Coercion used by Python arithmetic: ints are ints, bools are 0/1, anything
else raises `TypeError`. -/
def asInt (v : Jval) : Except PyErr Int :=
  match v with
  | .num n => .ok n
  | .bool b => .ok (if b then 1 else 0)
  | _ => .error .typeError

/-- Python iteration `for x in v`: lists yield their elements, strings their
one-character substrings, dicts their keys; other values raise `TypeError`. -/
def pyIter (v : Jval) : Except PyErr (List Jval) :=
  match v with
  | .arr l => .ok l
  | .str s => .ok (s.data.map (fun c => .str (String.singleton c)))
  | .obj fs => .ok (fs.map (fun p => .str p.1))
  | _ => .error .typeError

/-- Python tuple unpacking `x, y = v`: iterates `v` and requires exactly two
elements (`TypeError` when not iterable, `ValueError` on wrong length). -/
def pyUnpack2 (v : Jval) : Except PyErr (Jval × Jval) := do
  let l ← pyIter v
  match l with
  | [a, b] => .ok (a, b)
  | _ => .error .valueError

/-- The textual grid built by `process_game_state`. -/
abbrev Grid := List (List Char)

/-- `grid[i][j] = c` once both indices have been resolved to valid positions. -/
def gridSet (g : Grid) (i j : Nat) (c : Char) : Grid :=
  g.set i ((g.getD i []).set j c)

/-- Cell lookup in the rendered grid. -/
def cell (g : Grid) (i j : Nat) : Char :=
  (g.getD i []).getD j ' '

/-- The grid is 5×5. -/
def gridDims (g : Grid) : Prop :=
  g.length = 5 ∧ ∀ row ∈ g, row.length = 5

/-- Index expression of the projector, `x - state['currentPosition'][k] + 2`
(`center_x = center_y = 2`), with Python's evaluation order: the
`currentPosition` lookup and its subscript are evaluated before the
subtraction type-checks its operands. -/
def projIndex (state : Jval) (xv : Jval) (k : Int) : Except PyErr Int := do
  let cp ← pyGetItem state "currentPosition"
  let pv ← pyIndex cp k
  let x ← asInt xv
  let p ← asInt pv
  .ok (x - p + 2)

/-- One iteration of the coins loop:
`x, y = coin; grid[x - cp[0] + 2][y - cp[1] + 2] = 'C'`.
There is no bounds check; `grid[i]` resolves the row index with Python
negative-index semantics (raising `IndexError` outside `[-5, 5)`) before the
column expression is evaluated. -/
def placeCoin (state : Jval) (grid : Grid) (coin : Jval) : Except PyErr Grid := do
  let (xv, yv) ← pyUnpack2 coin
  let i ← projIndex state xv 0
  match pyIndexNat? 5 i with
  | none => .error .indexError
  | some irow => do
    let j ← projIndex state yv 1
    match pyIndexNat? 5 j with
    | none => .error .indexError
    | some jcol => .ok (gridSet grid irow jcol 'C')

/-- One iteration of the walls loop: `x, y = wall`, then the guarded
assignment `if 0 <= x-cp[0]+2 < 5 and 0 <= y-cp[1]+2 < 5: grid[...] = 'W'`.
The `and` short-circuits: the column expression is only evaluated when the
row bound holds. -/
def placeWall (state : Jval) (grid : Grid) (wall : Jval) : Except PyErr Grid := do
  let (xv, yv) ← pyUnpack2 wall
  let i ← projIndex state xv 0
  if 0 ≤ i ∧ i < 5 then do
    let j ← projIndex state yv 1
    if 0 ≤ j ∧ j < 5 then
      .ok (gridSet grid i.toNat j.toNat 'W')
    else
      .ok grid
  else
    .ok grid

/-- The body of `process_game_state` inside the `try`: build the 5×5 grid of
spaces, draw `'P'` at the center, place every coin, then every wall. Any
raised `PyErr` aborts the body. -/
def renderBody (state : Jval) : Except PyErr Grid := do
  let grid0 : Grid := List.replicate 5 (List.replicate 5 ' ')
  let grid1 := gridSet grid0 2 2 'P'
  let coinsV ← pyGetDefault state "coins" (.arr [])
  let coins ← pyIter coinsV
  let grid2 ← coins.foldlM (placeCoin state) grid1
  let wallsV ← pyGetDefault state "walls" (.arr [])
  let walls ← pyIter wallsV
  walls.foldlM (placeWall state) grid2

/-- Observable outcome of `process_game_state`: either the grid is printed,
or the catch-all `except Exception` prints an error report. -/
inductive Printed where
  | grid (g : Grid)
  | errorReport (e : PyErr)

/-- `process_game_state`: the whole body runs under `try`, and any exception
is converted into the printed error report. -/
def process_game_state (state : Jval) : Printed :=
  match renderBody state with
  | .ok g => .grid g
  | .error e => .errorReport e

/-- A well-formed GameState message
`{currentPosition: [px,py], coins: [...], walls: [...]}` with integer
coordinate pairs, as decoded from JSON. -/
def mkState (px py : Int) (coins walls : List (Int × Int)) : Jval :=
  .obj [("currentPosition", .arr [.num px, .num py]),
        ("coins", .arr (coins.map (fun p => .arr [.num p.1, .num p.2]))),
        ("walls", .arr (walls.map (fun p => .arr [.num p.1, .num p.2])))]

/-- Contiguous-sublist test on character lists. -/
def charsContain (t sub : List Char) : Bool :=
  match t with
  | [] => sub.isEmpty
  | _ :: ts => sub.isPrefixOf t || charsContain ts sub

/-- Python substring test `sub in t`, as used by `on_message` to route
topics. -/
def strContains (t sub : String) : Bool :=
  charsContain t.data sub.data

/-- The three routes an inbound message can take inside `on_message`. -/
inductive MsgAction where
  | stateRendered (out : Printed)
  | printScores (payload : String)
  | printGeneric (payload : String)

/-- The message callback `on_message` after the unconditional logging prints:
`payload = msg.payload.decode()`, then routing on substring membership.
`json.loads(payload)` belongs to the standard library, so its outcome is
passed in as `parsed`: `some v` when the payload decodes to the JSON value
`v`, `none` when parsing fails, in which case `json.loads` raises and —
there being no `try` in `on_message` — the exception propagates out of the
handler. -/
def on_message (topic : String) (parsed : Option Jval) (payload : String) :
    Except PyErr MsgAction :=
  if strContains topic "game_state" then
    match parsed with
    | some v => .ok (.stateRendered (process_game_state v))
    | none => .error .valueError
  else if strContains topic "scores" then
    .ok (.printScores payload)
  else
    .ok (.printGeneric payload)

/-- Effect of one iteration of the `while True` loop in
`user_input_control`: what was published (topic, payload), whether the loop
`break`s, and whether the invalid-move re-prompt was printed. -/
structure StepResult where
  published : Option (String × String)
  exitsLoop : Bool
  rejected : Bool

/-- Python `str.upper()` (ASCII case mapping, which covers the five move
tokens). -/
def pyUpper (s : String) : String :=
  ⟨s.data.map Char.toUpper⟩

/-- One iteration of `user_input_control` on the raw operator token:
`move = input(...).upper()`, then the three-way branch. -/
def user_input_step (lobby player raw : String) : StepResult :=
  let move := pyUpper raw
  if ["UP", "DOWN", "LEFT", "RIGHT"].contains move then
    { published := some ("games/" ++ lobby ++ "/" ++ player ++ "/move", move),
      exitsLoop := false, rejected := false }
  else if move == "STOP" then
    { published := some ("games/" ++ lobby ++ "/start", "STOP"),
      exitsLoop := true, rejected := false }
  else
    { published := none, exitsLoop := false, rejected := true }

/-- Modelled from the spec: broker-side subscription-filter matching, which
is performed by the MQTT broker (an external collaborator, not part of the
client source). Topics and filters are `/`-delimited segment lists; a filter
segment `+` matches exactly one arbitrary non-empty topic segment, every
other filter segment must match literally. -/
def segMatch : List String → List String → Bool
  | [], [] => true
  | f :: fs, t :: ts => (if f = "+" then !(t == "") else f == t) && segMatch fs ts
  | _, _ => false

/-- The three subscription filters registered by the client for its lobby,
as segment lists: `games/{lobby}/lobby`, `games/{lobby}/+/game_state`,
`games/{lobby}/scores`. -/
def subscriptions (lobby : String) : List (List String) :=
  [["games", lobby, "lobby"],
   ["games", lobby, "+", "game_state"],
   ["games", lobby, "scores"]]

/-- A topic (as a segment list) is delivered to the client iff the broker
matches it against some registered subscription filter. -/
def delivered (lobby : String) (topic : List String) : Bool :=
  (subscriptions lobby).any (fun f => segMatch f topic)

/-- The wire form of a segment-list topic: segments joined with `/`. -/
def joinTopic : List String → String
  | [] => ""
  | [s] => s
  | s :: rest => s ++ "/" ++ joinTopic rest

/-- The route `on_message` takes for a topic, by its substring tests. -/
inductive Route where
  | stateHandler
  | scoreHandler
  | genericHandler
deriving DecidableEq

/-- The routing decision of `on_message` as a function of the topic. -/
def dispatchRoute (topic : String) : Route :=
  if strContains topic "game_state" then .stateHandler
  else if strContains topic "scores" then .scoreHandler
  else .genericHandler

/-! ## Reduction of the projector on well-formed GameState messages -/

/-- `placeCoin` specialized to a well-formed state: what one coins-loop
iteration does to the grid as a function of the integer coordinates. -/
def placeCoinAt (px py : Int) (g : Grid) (x y : Int) : Except PyErr Grid :=
  match pyIndexNat? 5 (x - px + 2) with
  | none => .error .indexError
  | some i =>
    match pyIndexNat? 5 (y - py + 2) with
    | none => .error .indexError
    | some j => .ok (gridSet g i j 'C')

/-- `placeWall` specialized to a well-formed state. -/
def placeWallAt (px py : Int) (g : Grid) (x y : Int) : Except PyErr Grid :=
  if 0 ≤ x - px + 2 ∧ x - px + 2 < 5 then
    if 0 ≤ y - py + 2 ∧ y - py + 2 < 5 then
      .ok (gridSet g (x - px + 2).toNat (y - py + 2).toNat 'W')
    else .ok g
  else .ok g

/-- The initial grid: 5×5 spaces with `'P'` at the center. -/
def gridP : Grid := gridSet (List.replicate 5 (List.replicate 5 ' ')) 2 2 'P'

theorem placeCoin_mkState (px py : Int) (cs ws : List (Int × Int)) (g : Grid)
    (x y : Int) :
    placeCoin (mkState px py cs ws) g (.arr [.num x, .num y]) =
      placeCoinAt px py g x y := rfl

theorem placeWall_mkState (px py : Int) (cs ws : List (Int × Int)) (g : Grid)
    (x y : Int) :
    placeWall (mkState px py cs ws) g (.arr [.num x, .num y]) =
      placeWallAt px py g x y := rfl

/-- Folding a placement function over the JSON encodings of coordinate pairs
equals folding its specialization over the pairs themselves. -/
theorem foldlM_pairs (f₁ : Grid → Jval → Except PyErr Grid)
    (f₂ : Grid → Int × Int → Except PyErr Grid)
    (h : ∀ g p, f₁ g (.arr [.num p.1, .num p.2]) = f₂ g p) :
    ∀ (l : List (Int × Int)) (g : Grid),
      (l.map (fun p => Jval.arr [.num p.1, .num p.2])).foldlM f₁ g =
        l.foldlM f₂ g
  | [], _ => rfl
  | p :: l, g => by
    simp only [List.map_cons, List.foldlM_cons, h]
    cases f₂ g p with
    | error e => rfl
    | ok g' =>
      show (l.map _).foldlM f₁ g' = l.foldlM f₂ g'
      exact foldlM_pairs f₁ f₂ h l g'

/-- On a well-formed GameState, `renderBody` is the coins fold followed by
the walls fold over the integer coordinate pairs. -/
theorem renderBody_mkState (px py : Int) (cs ws : List (Int × Int)) :
    renderBody (mkState px py cs ws) =
      cs.foldlM (fun g c => placeCoinAt px py g c.1 c.2) gridP >>=
        fun g2 => ws.foldlM (fun g w => placeWallAt px py g w.1 w.2) g2 := by
  have hc := foldlM_pairs (placeCoin (mkState px py cs ws))
    (fun g c => placeCoinAt px py g c.1 c.2)
    (fun g p => placeCoin_mkState px py cs ws g p.1 p.2) cs gridP
  show (cs.map (fun p => Jval.arr [.num p.1, .num p.2])).foldlM
      (placeCoin (mkState px py cs ws)) gridP >>=
      (fun g2 => (ws.map (fun p => Jval.arr [.num p.1, .num p.2])).foldlM
        (placeWall (mkState px py cs ws)) g2) = _
  rw [hc]
  exact bind_congr fun g2 => foldlM_pairs (placeWall (mkState px py cs ws))
    (fun g w => placeWallAt px py g w.1 w.2)
    (fun g p => placeWall_mkState px py cs ws g p.1 p.2) ws g2

/-! ## Grid lemmas -/

theorem getD_mem {g : Grid} {i : Nat} (h : i < g.length) : g.getD i [] ∈ g := by
  rw [List.getD_eq_getElem?_getD, List.getElem?_eq_getElem h]
  exact List.getElem_mem ..

theorem gridDims_gridP : gridDims gridP := by
  constructor
  · rfl
  · decide

theorem cell_gridP_center : cell gridP 2 2 = 'P' := by decide

theorem gridDims_gridSet {g : Grid} (i j : Nat) (c : Char) (h : gridDims g) :
    gridDims (gridSet g i j c) := by
  obtain ⟨hl, hr⟩ := h
  by_cases hi : i < g.length
  · refine ⟨by simpa [gridSet] using hl, ?_⟩
    intro row hrow
    rcases List.mem_or_eq_of_mem_set hrow with h1 | h2
    · exact hr row h1
    · subst h2
      rw [List.length_set]
      exact hr _ (getD_mem hi)
  · unfold gridSet
    rw [List.set_eq_of_length_le (by omega)]
    exact ⟨hl, hr⟩

theorem getD_set_eq {α : Type} (l : List α) (n : Nat) (x d : α)
    (h : n < l.length) : (l.set n x).getD n d = x := by
  rw [List.getD_eq_getElem?_getD, List.getElem?_set_eq_of_lt _ h]
  rfl

theorem getD_set_neq {α : Type} (l : List α) (n m : Nat) (x d : α)
    (h : m ≠ n) : (l.set n x).getD m d = l.getD m d := by
  rw [List.getD_eq_getElem?_getD, List.getElem?_set_ne (Ne.symm h),
    ← List.getD_eq_getElem?_getD]

theorem cell_gridSet_self {g : Grid} {i j : Nat} (c : Char) (h : gridDims g)
    (hi : i < 5) (hj : j < 5) : cell (gridSet g i j c) i j = c := by
  obtain ⟨hl, hr⟩ := h
  have hig : i < g.length := by omega
  have hrow : (g.getD i []).length = 5 := hr _ (getD_mem hig)
  unfold cell gridSet
  rw [getD_set_eq _ _ _ _ hig, getD_set_eq _ _ _ _ (by omega)]

theorem cell_gridSet_ne {g : Grid} {i j a b : Nat} (c : Char)
    (hi : i < g.length) (hne : ¬(a = i ∧ b = j)) :
    cell (gridSet g i j c) a b = cell g a b := by
  unfold cell gridSet
  by_cases hai : a = i
  · subst hai
    have hbj : b ≠ j := fun hb => hne ⟨rfl, hb⟩
    rw [getD_set_eq _ _ _ _ hi, getD_set_neq _ _ _ _ _ hbj]
  · rw [getD_set_neq _ _ _ _ _ hai]

/-- Every cell of a `gridSet` result is the old cell or the written
character. -/
theorem cell_gridSet_cases {g : Grid} (i j a b : Nat) (c : Char)
    (h : gridDims g) (hi : i < 5) (hj : j < 5) :
    cell (gridSet g i j c) a b = cell g a b ∨ cell (gridSet g i j c) a b = c := by
  by_cases hab : a = i ∧ b = j
  · right
    obtain ⟨ha, hb⟩ := hab
    subst ha; subst hb
    exact cell_gridSet_self c h hi hj
  · left
    have hgl := h.1
    exact cell_gridSet_ne c (by omega) hab

/-! ## Placement lemmas -/

theorem pyIndexNat?_lt {len : Nat} {i : Int} {n : Nat}
    (h : pyIndexNat? len i = some n) : n < len := by
  unfold pyIndexNat? at h
  split_ifs at h <;> simp_all <;> omega

theorem pyIndexNat?_of_bounds {i : Int} (h0 : 0 ≤ i) (h5 : i < 5) :
    pyIndexNat? 5 i = some i.toNat := by
  unfold pyIndexNat?
  rw [if_pos h0, if_pos (by exact_mod_cast h5)]

theorem pyIndexNat?_neg {i : Int} (h0 : i < 0) (h5 : -5 ≤ i) :
    pyIndexNat? 5 i = some (i + 5).toNat := by
  unfold pyIndexNat?
  rw [if_neg (by omega), if_pos (by omega)]
  norm_num

theorem pyIndexNat?_none {i : Int} (h : i < -5 ∨ 5 ≤ i) :
    pyIndexNat? 5 i = none := by
  unfold pyIndexNat?
  rcases h with h | h
  · rw [if_neg (by omega), if_neg (by omega)]
  · rw [if_pos (by omega), if_neg (by omega)]

theorem placeCoinAt_ok {px py x y : Int} {g g' : Grid}
    (h : placeCoinAt px py g x y = .ok g') :
    ∃ a b : Nat, pyIndexNat? 5 (x - px + 2) = some a ∧
      pyIndexNat? 5 (y - py + 2) = some b ∧ g' = gridSet g a b 'C' := by
  unfold placeCoinAt at h
  cases hx : pyIndexNat? 5 (x - px + 2) with
  | none => rw [hx] at h; exact Except.noConfusion h
  | some a =>
    rw [hx] at h
    cases hy : pyIndexNat? 5 (y - py + 2) with
    | none => rw [hy] at h; exact Except.noConfusion h
    | some b =>
      rw [hy] at h
      exact ⟨a, b, rfl, rfl, (Except.ok.inj h).symm⟩

theorem placeWallAt_ok {px py x y : Int} {g g' : Grid}
    (h : placeWallAt px py g x y = .ok g') :
    g' = g ∨ ∃ a b : Nat, a < 5 ∧ b < 5 ∧ x - px + 2 = (a : Int) ∧
      y - py + 2 = (b : Int) ∧ g' = gridSet g a b 'W' := by
  unfold placeWallAt at h
  split_ifs at h with h1 h2
  · right
    refine ⟨(x - px + 2).toNat, (y - py + 2).toNat, by omega, by omega,
      by omega, by omega, (Except.ok.inj h).symm⟩
  · left; exact (Except.ok.inj h).symm
  · left; exact (Except.ok.inj h).symm

/-- A coin writes the cell `(a, b)` (after Python index resolution). -/
def coinTarget (px py : Int) (c : Int × Int) (a b : Nat) : Prop :=
  pyIndexNat? 5 (c.1 - px + 2) = some a ∧ pyIndexNat? 5 (c.2 - py + 2) = some b

/-- A wall writes the cell `(a, b)` (its projection is in `[0,5)²`). -/
def wallTarget (px py : Int) (w : Int × Int) (a b : Nat) : Prop :=
  w.1 - px + 2 = (a : Int) ∧ w.2 - py + 2 = (b : Int) ∧ a < 5 ∧ b < 5

instance (px py : Int) (c : Int × Int) (a b : Nat) :
    Decidable (coinTarget px py c a b) := by
  unfold coinTarget; infer_instance

instance (px py : Int) (w : Int × Int) (a b : Nat) :
    Decidable (wallTarget px py w a b) := by
  unfold wallTarget; infer_instance

/-- The coins loop over a well-formed state as a fold. -/
def coinFold (px py : Int) (cs : List (Int × Int)) (g : Grid) :
    Except PyErr Grid :=
  cs.foldlM (fun g c => placeCoinAt px py g c.1 c.2) g

/-- The walls loop over a well-formed state as a fold. -/
def wallFold (px py : Int) (ws : List (Int × Int)) (g : Grid) :
    Except PyErr Grid :=
  ws.foldlM (fun g w => placeWallAt px py g w.1 w.2) g

theorem renderBody_folds (px py : Int) (cs ws : List (Int × Int)) :
    renderBody (mkState px py cs ws) =
      coinFold px py cs gridP >>= wallFold px py ws := by
  rw [renderBody_mkState]
  rfl

theorem coinFold_dims {px py : Int} {cs : List (Int × Int)} :
    ∀ {g g' : Grid}, coinFold px py cs g = .ok g' → gridDims g → gridDims g' := by
  induction cs with
  | nil =>
    intro g g' h hd
    cases Except.ok.inj h
    exact hd
  | cons c cs ih =>
    intro g g' h hd
    unfold coinFold at h
    rw [List.foldlM_cons] at h
    cases hx : placeCoinAt px py g c.1 c.2 with
    | error e => rw [hx] at h; exact Except.noConfusion h
    | ok g1 =>
      rw [hx] at h
      obtain ⟨a, b, _, _, hg1⟩ := placeCoinAt_ok hx
      exact ih h (hg1 ▸ gridDims_gridSet a b 'C' hd)

theorem wallFold_dims {px py : Int} {ws : List (Int × Int)} :
    ∀ {g g' : Grid}, wallFold px py ws g = .ok g' → gridDims g → gridDims g' := by
  induction ws with
  | nil =>
    intro g g' h hd
    cases Except.ok.inj h
    exact hd
  | cons w ws ih =>
    intro g g' h hd
    unfold wallFold at h
    rw [List.foldlM_cons] at h
    cases hx : placeWallAt px py g w.1 w.2 with
    | error e => rw [hx] at h; exact Except.noConfusion h
    | ok g1 =>
      rw [hx] at h
      rcases placeWallAt_ok hx with hg1 | ⟨a, b, _, _, _, _, hg1⟩
      · exact ih h (hg1 ▸ hd)
      · exact ih h (hg1 ▸ gridDims_gridSet a b 'W' hd)

/-- Each cell after the coins loop is the old cell or a coin marker. -/
theorem coinFold_cell_cases {px py : Int} {cs : List (Int × Int)} :
    ∀ {g g' : Grid} (a b : Nat), coinFold px py cs g = .ok g' → gridDims g →
      cell g' a b = cell g a b ∨ cell g' a b = 'C' := by
  induction cs with
  | nil =>
    intro g g' a b h _
    cases Except.ok.inj h
    exact Or.inl rfl
  | cons c cs ih =>
    intro g g' a b h hd
    unfold coinFold at h
    rw [List.foldlM_cons] at h
    cases hx : placeCoinAt px py g c.1 c.2 with
    | error e => rw [hx] at h; exact Except.noConfusion h
    | ok g1 =>
      rw [hx] at h
      obtain ⟨i, j, hi, hj, hg1⟩ := placeCoinAt_ok hx
      have hd1 : gridDims g1 := hg1 ▸ gridDims_gridSet i j 'C' hd
      rcases ih a b h hd1 with h1 | h1
      · rw [h1, hg1]
        exact cell_gridSet_cases i j a b 'C' hd (pyIndexNat?_lt hi)
          (pyIndexNat?_lt hj)
      · exact Or.inr h1

/-- Each cell after the walls loop is the old cell or a wall marker. -/
theorem wallFold_cell_cases {px py : Int} {ws : List (Int × Int)} :
    ∀ {g g' : Grid} (a b : Nat), wallFold px py ws g = .ok g' → gridDims g →
      cell g' a b = cell g a b ∨ cell g' a b = 'W' := by
  induction ws with
  | nil =>
    intro g g' a b h _
    cases Except.ok.inj h
    exact Or.inl rfl
  | cons w ws ih =>
    intro g g' a b h hd
    unfold wallFold at h
    rw [List.foldlM_cons] at h
    cases hx : placeWallAt px py g w.1 w.2 with
    | error e => rw [hx] at h; exact Except.noConfusion h
    | ok g1 =>
      rw [hx] at h
      rcases placeWallAt_ok hx with hg1 | ⟨i, j, hi5, hj5, _, _, hg1⟩
      · subst hg1
        exact ih a b h hd
      · have hd1 : gridDims g1 := hg1 ▸ gridDims_gridSet i j 'W' hd
        rcases ih a b h hd1 with h1 | h1
        · rw [h1, hg1]
          exact cell_gridSet_cases i j a b 'W' hd hi5 hj5
        · exact Or.inr h1

/-- A cell no coin targets is untouched by the coins loop. -/
theorem coinFold_preserve {px py : Int} {cs : List (Int × Int)} :
    ∀ {g g' : Grid} {a b : Nat},
      (∀ c ∈ cs, ¬ coinTarget px py c a b) →
      coinFold px py cs g = .ok g' → gridDims g → cell g' a b = cell g a b := by
  induction cs with
  | nil =>
    intro g g' a b _ h _
    cases Except.ok.inj h
    rfl
  | cons c cs ih =>
    intro g g' a b hna h hd
    unfold coinFold at h
    rw [List.foldlM_cons] at h
    cases hx : placeCoinAt px py g c.1 c.2 with
    | error e => rw [hx] at h; exact Except.noConfusion h
    | ok g1 =>
      rw [hx] at h
      obtain ⟨i, j, hi, hj, hg1⟩ := placeCoinAt_ok hx
      have hd1 : gridDims g1 := hg1 ▸ gridDims_gridSet i j 'C' hd
      have hne : ¬(a = i ∧ b = j) := by
        rintro ⟨rfl, rfl⟩
        exact hna c (List.mem_cons_self c cs) ⟨hi, hj⟩
      have hstep : cell g1 a b = cell g a b := by
        rw [hg1]
        exact cell_gridSet_ne 'C' (by have := hd.1; have := pyIndexNat?_lt hi; omega) hne
      rw [ih (fun c hc => hna c (List.mem_cons_of_mem _ hc)) h hd1, hstep]

/-- A cell no wall targets is untouched by the walls loop. -/
theorem wallFold_preserve {px py : Int} {ws : List (Int × Int)} :
    ∀ {g g' : Grid} {a b : Nat},
      (∀ w ∈ ws, ¬ wallTarget px py w a b) →
      wallFold px py ws g = .ok g' → gridDims g → cell g' a b = cell g a b := by
  induction ws with
  | nil =>
    intro g g' a b _ h _
    cases Except.ok.inj h
    rfl
  | cons w ws ih =>
    intro g g' a b hna h hd
    unfold wallFold at h
    rw [List.foldlM_cons] at h
    cases hx : placeWallAt px py g w.1 w.2 with
    | error e => rw [hx] at h; exact Except.noConfusion h
    | ok g1 =>
      rw [hx] at h
      rcases placeWallAt_ok hx with hg1 | ⟨i, j, hi5, hj5, hip, hjp, hg1⟩
      · subst hg1
        exact ih (fun w hw => hna w (List.mem_cons_of_mem _ hw)) h hd
      · have hd1 : gridDims g1 := hg1 ▸ gridDims_gridSet i j 'W' hd
        have hne : ¬(a = i ∧ b = j) := by
          rintro ⟨rfl, rfl⟩
          exact hna w (List.mem_cons_self w ws) ⟨hip, hjp, hi5, hj5⟩
        have hstep : cell g1 a b = cell g a b := by
          rw [hg1]
          exact cell_gridSet_ne 'W' (by have := hd.1; omega) hne
        rw [ih (fun w hw => hna w (List.mem_cons_of_mem _ hw)) h hd1, hstep]

/-- After the coins loop, a targeted cell holds a coin marker. -/
theorem coinFold_sets {px py : Int} {cs : List (Int × Int)} :
    ∀ {g g' : Grid} {c : Int × Int} {a b : Nat}, c ∈ cs →
      coinTarget px py c a b → coinFold px py cs g = .ok g' → gridDims g →
      cell g' a b = 'C' := by
  induction cs with
  | nil => intro _ _ _ _ _ hmem; cases hmem
  | cons c0 cs ih =>
    intro g g' c a b hmem htgt h hd
    unfold coinFold at h
    rw [List.foldlM_cons] at h
    cases hx : placeCoinAt px py g c0.1 c0.2 with
    | error e => rw [hx] at h; exact Except.noConfusion h
    | ok g1 =>
      rw [hx] at h
      obtain ⟨i, j, hi, hj, hg1⟩ := placeCoinAt_ok hx
      have hd1 : gridDims g1 := hg1 ▸ gridDims_gridSet i j 'C' hd
      rcases List.mem_cons.mp hmem with heq | hmem2
      · obtain ⟨h1, h2⟩ := htgt
        rw [heq] at h1 h2
        have hia : i = a := Option.some.inj (by rw [← hi, ← h1])
        have hjb : j = b := Option.some.inj (by rw [← hj, ← h2])
        have hset : cell g1 a b = 'C' := by
          rw [hg1, ← hia, ← hjb]
          exact cell_gridSet_self 'C' hd (pyIndexNat?_lt hi) (pyIndexNat?_lt hj)
        rcases coinFold_cell_cases a b h hd1 with hc | hc
        · rw [hc, hset]
        · exact hc
      · exact ih hmem2 htgt h hd1

/-- A wall whose target is `(a, b)` performs exactly that write. -/
theorem placeWallAt_of_target {px py : Int} {w : Int × Int} {a b : Nat}
    (g : Grid) (htgt : wallTarget px py w a b) :
    placeWallAt px py g w.1 w.2 = .ok (gridSet g a b 'W') := by
  obtain ⟨hip, hjp, hi5, hj5⟩ := htgt
  unfold placeWallAt
  rw [if_pos ⟨by omega, by omega⟩, if_pos ⟨by omega, by omega⟩]
  have hta : (w.1 - px + 2).toNat = a := by omega
  have htb : (w.2 - py + 2).toNat = b := by omega
  rw [hta, htb]

/-- After the walls loop, a targeted cell holds a wall marker. -/
theorem wallFold_sets {px py : Int} {ws : List (Int × Int)} :
    ∀ {g g' : Grid} {w : Int × Int} {a b : Nat}, w ∈ ws →
      wallTarget px py w a b → wallFold px py ws g = .ok g' → gridDims g →
      cell g' a b = 'W' := by
  induction ws with
  | nil => intro _ _ _ _ _ hmem; cases hmem
  | cons w0 ws ih =>
    intro g g' w a b hmem htgt h hd
    unfold wallFold at h
    rw [List.foldlM_cons] at h
    cases hx : placeWallAt px py g w0.1 w0.2 with
    | error e => rw [hx] at h; exact Except.noConfusion h
    | ok g1 =>
      rw [hx] at h
      rcases List.mem_cons.mp hmem with rfl | hmem2
      · rw [placeWallAt_of_target g htgt] at hx
        have hg1 : g1 = gridSet g a b 'W' := (Except.ok.inj hx).symm
        have hd1 : gridDims g1 := hg1 ▸ gridDims_gridSet a b 'W' hd
        have hset : cell g1 a b = 'W' := by
          rw [hg1]
          exact cell_gridSet_self 'W' hd htgt.2.2.1 htgt.2.2.2
        rcases wallFold_cell_cases a b h hd1 with h1 | h1
        · rw [h1, hset]
        · exact h1
      · have hd1 : gridDims g1 := by
          rcases placeWallAt_ok hx with hg1 | ⟨i, j, _, _, _, _, hg1⟩
          · exact hg1 ▸ hd
          · exact hg1 ▸ gridDims_gridSet i j 'W' hd
        exact ih hmem2 htgt h hd1

/-! ## Totality and shape of the rendered grid on arbitrary inputs -/

theorem bind_eq_ok {α β : Type} {e : Except PyErr α} {f : α → Except PyErr β}
    {b : β} (h : e >>= f = .ok b) : ∃ a, e = .ok a ∧ f a = .ok b := by
  cases e with
  | error err => exact Except.noConfusion h
  | ok a => exact ⟨a, rfl, h⟩

theorem placeCoin_dims {state coin : Jval} {g g' : Grid}
    (h : placeCoin state g coin = .ok g') (hd : gridDims g) : gridDims g' := by
  unfold placeCoin at h
  obtain ⟨⟨xv, yv⟩, hu, h⟩ := bind_eq_ok h
  obtain ⟨i, hi, h⟩ := bind_eq_ok h
  cases hn : pyIndexNat? 5 i with
  | none => rw [hn] at h; exact Except.noConfusion h
  | some a =>
    rw [hn] at h
    obtain ⟨j, hj, h⟩ := bind_eq_ok h
    cases hm : pyIndexNat? 5 j with
    | none => rw [hm] at h; exact Except.noConfusion h
    | some b =>
      rw [hm] at h
      cases Except.ok.inj h
      exact gridDims_gridSet a b 'C' hd

theorem placeWall_dims {state wall : Jval} {g g' : Grid}
    (h : placeWall state g wall = .ok g') (hd : gridDims g) : gridDims g' := by
  unfold placeWall at h
  obtain ⟨⟨xv, yv⟩, hu, h⟩ := bind_eq_ok h
  obtain ⟨i, hi, h⟩ := bind_eq_ok h
  by_cases hc1 : 0 ≤ i ∧ i < 5
  · rw [if_pos hc1] at h
    obtain ⟨j, hj, h⟩ := bind_eq_ok h
    by_cases hc2 : 0 ≤ j ∧ j < 5
    · rw [if_pos hc2] at h
      cases Except.ok.inj h
      exact gridDims_gridSet i.toNat j.toNat 'W' hd
    · rw [if_neg hc2] at h
      cases Except.ok.inj h
      exact hd
  · rw [if_neg hc1] at h
    cases Except.ok.inj h
    exact hd

theorem foldCoin_dims_any {state : Jval} {l : List Jval} :
    ∀ {g g' : Grid}, l.foldlM (placeCoin state) g = .ok g' → gridDims g →
      gridDims g' := by
  induction l with
  | nil =>
    intro g g' h hd
    cases Except.ok.inj h
    exact hd
  | cons v l ih =>
    intro g g' h hd
    rw [List.foldlM_cons] at h
    obtain ⟨g1, hx, h⟩ := bind_eq_ok h
    exact ih h (placeCoin_dims hx hd)

theorem foldWall_dims_any {state : Jval} {l : List Jval} :
    ∀ {g g' : Grid}, l.foldlM (placeWall state) g = .ok g' → gridDims g →
      gridDims g' := by
  induction l with
  | nil =>
    intro g g' h hd
    cases Except.ok.inj h
    exact hd
  | cons v l ih =>
    intro g g' h hd
    rw [List.foldlM_cons] at h
    obtain ⟨g1, hx, h⟩ := bind_eq_ok h
    exact ih h (placeWall_dims hx hd)

/-- Whenever the body completes, the printed grid is 5×5. -/
theorem renderBody_dims {state : Jval} {g : Grid}
    (h : renderBody state = .ok g) : gridDims g := by
  unfold renderBody at h
  obtain ⟨coinsV, h1, h⟩ := bind_eq_ok h
  obtain ⟨coins, h2, h⟩ := bind_eq_ok h
  obtain ⟨g2, h3, h⟩ := bind_eq_ok h
  obtain ⟨wallsV, h4, h⟩ := bind_eq_ok h
  obtain ⟨walls, h5, h⟩ := bind_eq_ok h
  exact foldWall_dims_any h (foldCoin_dims_any h3 gridDims_gridP)

/-- Cell content of a printed outcome; `'!'` stands for the error report. -/
def printedCell (p : Printed) (i j : Nat) : Char :=
  match p with
  | .grid g => cell g i j
  | .errorReport _ => '!'

theorem process_ok {state : Jval} {g : Grid}
    (h : process_game_state state = .grid g) : renderBody state = .ok g := by
  unfold process_game_state at h
  cases hr : renderBody state with
  | ok g0 =>
    rw [hr] at h
    exact congrArg Except.ok (Printed.grid.inj h)
  | error e => rw [hr] at h; exact Printed.noConfusion h

/-- On a well-formed state, a successful render decomposes into the coin fold
followed by the wall fold, with 5×5 dimensions throughout. -/
theorem process_ok_folds {px py : Int} {cs ws : List (Int × Int)} {g : Grid}
    (h : process_game_state (mkState px py cs ws) = .grid g) :
    ∃ g2, coinFold px py cs gridP = .ok g2 ∧ wallFold px py ws g2 = .ok g ∧
      gridDims g2 := by
  have hr := process_ok h
  rw [renderBody_folds] at hr
  obtain ⟨g2, hcf, hwf⟩ := bind_eq_ok hr
  exact ⟨g2, hcf, hwf, coinFold_dims hcf gridDims_gridP⟩

/-! ## Claim theorems: the state projector -/

/-- C1: code behavior at the spec's own out-of-view scenario. The claim says
an entity whose projection falls outside `[0,5)` is silently omitted and the
rest of the grid is still rendered. For walls that is what the code does,
but the coins loop has no bounds check: the coin at `[10,10]` with
`currentPosition [0,0]` projects to `(12,12)`, `grid[12]` raises
`IndexError`, the catch-all reports the error, and no grid is rendered at
all. -/
theorem C1_coin_out_of_view_aborts_render :
    process_game_state (mkState 0 0 [(10, 10)] []) =
      .errorReport .indexError := rfl

/-- C8: `process_game_state` is deterministic — the rendering is a pure
function of the GameState snapshot, with no state carried across calls, so
rendering the same snapshot twice produces identical output. -/
theorem C8_process_game_state_deterministic (s : Jval) :
    process_game_state s = process_game_state s := rfl

/-- C9: `process_game_state` is total over arbitrary decoded inputs: every
input either yields a complete (5×5) printed grid or a printed error
report; no exception escapes the catch-all handler. -/
theorem C9_process_game_state_total (v : Jval) :
    (∃ g, process_game_state v = .grid g ∧ gridDims g) ∨
      (∃ e, process_game_state v = .errorReport e) := by
  unfold process_game_state
  cases hr : renderBody v with
  | ok g => exact Or.inl ⟨g, rfl, renderBody_dims hr⟩
  | error e => exact Or.inr ⟨e, rfl⟩

/-- C2 counterexample: with a coin at the player's own position
(`currentPosition [0,0]`, coin `[0,0]`), the coin projects to the center
cell `(2,2)` and overwrites the player marker: the rendered center is `'C'`,
not `'P'`. The player is drawn first, so it does NOT take precedence. -/
theorem C2_center_overwritten_counterexample :
    printedCell (process_game_state (mkState 0 0 [(0, 0)] [])) 2 2 = 'C' ∧
      printedCell (process_game_state (mkState 0 0 [(0, 0)] [])) 2 2 ≠ 'P' := by
  constructor
  · rfl
  · intro h
    exact absurd h (by decide)

/-- C2 (amended): the player marker is drawn first at `(2,2)`; it is still
there in the rendered grid provided no coin lands on the center under the
code's index resolution and no wall projects to the center. A coin or wall
that does land there overwrites the `'P'`. -/
theorem C2_center_is_player_amended (px py : Int) (cs ws : List (Int × Int))
    (g : Grid) (hok : process_game_state (mkState px py cs ws) = .grid g)
    (hc : ∀ c ∈ cs, ¬ coinTarget px py c 2 2)
    (hw : ∀ w ∈ ws, ¬ wallTarget px py w 2 2) :
    cell g 2 2 = 'P' := by
  obtain ⟨g2, hcf, hwf, hd2⟩ := process_ok_folds hok
  rw [wallFold_preserve hw hwf hd2, coinFold_preserve hc hcf gridDims_gridP,
    cell_gridP_center]

/-- C2 witness: player at `[0,0]`, one coin at `[1,1]` (renders at `(3,3)`),
one wall at `[0,1]` (renders at `(2,3)`); the center cell stays `'P'`. -/
theorem C2_center_is_player_witness :
    process_game_state (mkState 0 0 [(1, 1)] [(0, 1)]) =
      .grid [[' ', ' ', ' ', ' ', ' '], [' ', ' ', ' ', ' ', ' '],
             [' ', ' ', 'P', 'W', ' '], [' ', ' ', ' ', 'C', ' '],
             [' ', ' ', ' ', ' ', ' ']] ∧
    cell [[' ', ' ', ' ', ' ', ' '], [' ', ' ', ' ', ' ', ' '],
          [' ', ' ', 'P', 'W', ' '], [' ', ' ', ' ', 'C', ' '],
          [' ', ' ', ' ', ' ', ' ']] 2 2 = 'P' :=
  ⟨rfl, C2_center_is_player_amended 0 0 [(1, 1)] [(0, 1)] _ rfl
    (by decide) (by decide)⟩

/-- C6: when a coin and a wall project to the same in-bounds cell other than
the center, the rendered cell shows the wall marker: walls are processed
after coins, so the wall overwrites the previously drawn coin. -/
theorem C6_wall_overwrites_coin (px py : Int) (cs ws : List (Int × Int))
    (g : Grid) (c w : Int × Int) (a b : Nat)
    (hok : process_game_state (mkState px py cs ws) = .grid g)
    (hcmem : c ∈ cs) (hwmem : w ∈ ws)
    (hcx : c.1 - px + 2 = (a : Int)) (hcy : c.2 - py + 2 = (b : Int))
    (hwx : w.1 - px + 2 = (a : Int)) (hwy : w.2 - py + 2 = (b : Int))
    (ha : a < 5) (hb : b < 5) (hne : ¬(a = 2 ∧ b = 2)) :
    cell g a b = 'W' := by
  obtain ⟨g2, hcf, hwf, hd2⟩ := process_ok_folds hok
  exact wallFold_sets hwmem ⟨hwx, hwy, ha, hb⟩ hwf hd2

/-- C6 witness: player at `[3,3]`, a coin and a wall both at `[4,4]`; both
project to `(3,3)` and the rendered cell is `'W'`. -/
theorem C6_wall_overwrites_coin_witness :
    process_game_state (mkState 3 3 [(4, 4)] [(4, 4)]) =
      .grid [[' ', ' ', ' ', ' ', ' '], [' ', ' ', ' ', ' ', ' '],
             [' ', ' ', 'P', ' ', ' '], [' ', ' ', ' ', 'W', ' '],
             [' ', ' ', ' ', ' ', ' ']] ∧
    cell [[' ', ' ', ' ', ' ', ' '], [' ', ' ', ' ', ' ', ' '],
          [' ', ' ', 'P', ' ', ' '], [' ', ' ', ' ', 'W', ' '],
          [' ', ' ', ' ', ' ', ' ']] 3 3 = 'W' :=
  ⟨rfl, C6_wall_overwrites_coin 3 3 [(4, 4)] [(4, 4)] _ (4, 4) (4, 4) 3 3 rfl
    (List.mem_singleton.mpr rfl) (List.mem_singleton.mpr rfl)
    (by decide) (by decide) (by decide) (by decide)
    (by decide) (by decide) (by decide)⟩

theorem pyIndexNat?_emod {i : Int} (h5 : -5 ≤ i) (h : i < 5) :
    pyIndexNat? 5 i = some ((i % 5).toNat) := by
  by_cases h0 : 0 ≤ i
  · rw [pyIndexNat?_of_bounds h0 h]
    congr 1
    omega
  · rw [pyIndexNat?_neg (by omega) h5]
    congr 1
    omega

/-- C10: the unchecked coin indexing wraps. A coin with a projected
coordinate in `[-5,0)` (the other in `[-5,5)`) is drawn at the wrap-around
position given by Python negative indexing, i.e. at the indices modulo 5,
rather than being omitted — provided the render completes and no wall covers
that cell. A wall with a negative projected coordinate, by contrast, is
skipped by the bounds check and leaves the grid unchanged. -/
theorem C10_coin_negative_index_wraps (px py : Int) (cs ws : List (Int × Int))
    (g : Grid) (c : Int × Int)
    (hok : process_game_state (mkState px py cs ws) = .grid g)
    (hmem : c ∈ cs)
    (hx5 : -5 ≤ c.1 - px + 2) (hx : c.1 - px + 2 < 5)
    (hy5 : -5 ≤ c.2 - py + 2) (hy : c.2 - py + 2 < 5)
    (hneg : c.1 - px + 2 < 0 ∨ c.2 - py + 2 < 0)
    (hw : ∀ w ∈ ws, ¬ wallTarget px py w ((c.1 - px + 2) % 5).toNat
      ((c.2 - py + 2) % 5).toNat) :
    cell g ((c.1 - px + 2) % 5).toNat ((c.2 - py + 2) % 5).toNat = 'C' ∧
    ∀ (g0 : Grid) (w : Int × Int), w.1 - px + 2 < 0 ∨ w.2 - py + 2 < 0 →
      placeWallAt px py g0 w.1 w.2 = .ok g0 := by
  constructor
  · obtain ⟨g2, hcf, hwf, hd2⟩ := process_ok_folds hok
    have hct : coinTarget px py c ((c.1 - px + 2) % 5).toNat
        ((c.2 - py + 2) % 5).toNat :=
      ⟨pyIndexNat?_emod hx5 hx, pyIndexNat?_emod hy5 hy⟩
    rw [wallFold_preserve hw hwf hd2]
    exact coinFold_sets hmem hct hcf gridDims_gridP
  · intro g0 w hwneg
    unfold placeWallAt
    rcases hwneg with h1 | h1
    · rw [if_neg (by omega)]
    · by_cases h2 : 0 ≤ w.1 - px + 2 ∧ w.1 - px + 2 < 5
      · rw [if_pos h2, if_neg (by omega)]
      · rw [if_neg h2]

/-- C10 witness: player at `[0,0]`, coin at `[-3,0]`: projection `(-1,2)`,
negative row index wraps to row 4, so the coin is drawn at `(4,2)`; a wall
at the same absolute position would be skipped. -/
theorem C10_coin_negative_index_wraps_witness :
    process_game_state (mkState 0 0 [(-3, 0)] []) =
      .grid [[' ', ' ', ' ', ' ', ' '], [' ', ' ', ' ', ' ', ' '],
             [' ', ' ', 'P', ' ', ' '], [' ', ' ', ' ', ' ', ' '],
             [' ', ' ', 'C', ' ', ' ']] ∧
    cell [[' ', ' ', ' ', ' ', ' '], [' ', ' ', ' ', ' ', ' '],
          [' ', ' ', 'P', ' ', ' '], [' ', ' ', ' ', ' ', ' '],
          [' ', ' ', 'C', ' ', ' ']] 4 2 = 'C' :=
  ⟨rfl, (C10_coin_negative_index_wraps 0 0 [(-3, 0)] [] _ (-3, 0) rfl
    (List.mem_singleton.mpr rfl) (by decide) (by decide) (by decide)
    (by decide) (by decide) (by decide)).1⟩

/-! ## Claim theorems: input loop and message handler -/

theorem str_data_append (a b : String) : (a ++ b).data = a.data ++ b.data := rfl

/-- The lobby-wide start/stop topic differs from every player move topic. -/
theorem start_ne_move (lobby player : String) :
    "games/" ++ lobby ++ "/start" ≠
      "games/" ++ lobby ++ "/" ++ player ++ "/move" := by
  intro h
  have hd := congrArg (fun s : String => s.data.getLast?) h
  simp only [str_data_append] at hd
  rw [List.getLast?_append_of_ne_nil _ (by decide),
    List.getLast?_append_of_ne_nil _ (by decide)] at hd
  exact absurd hd (by decide)

/-- C5: the loop body accepts exactly the five tokens case-insensitively
(via `.upper()`): a direction publishes its own uppercased name on the
player's move topic and continues; `STOP` publishes the lobby stop and
exits; anything else publishes nothing, re-prompts, and continues. -/
theorem C5_move_validation (lobby player raw : String) :
    (pyUpper raw ∈ (["UP", "DOWN", "LEFT", "RIGHT"] : List String) →
      user_input_step lobby player raw =
        { published := some ("games/" ++ lobby ++ "/" ++ player ++ "/move",
            pyUpper raw),
          exitsLoop := false, rejected := false }) ∧
    (pyUpper raw = "STOP" →
      user_input_step lobby player raw =
        { published := some ("games/" ++ lobby ++ "/start", "STOP"),
          exitsLoop := true, rejected := false }) ∧
    (pyUpper raw ∉ (["UP", "DOWN", "LEFT", "RIGHT", "STOP"] : List String) →
      user_input_step lobby player raw =
        { published := none, exitsLoop := false, rejected := true }) := by
  refine ⟨fun hmem => ?_, fun hstop => ?_, fun hnot => ?_⟩
  · unfold user_input_step
    rw [if_pos (by simpa using hmem)]
  · unfold user_input_step
    rw [if_neg (by rw [hstop]; decide), if_pos (by simp [hstop])]
  · have h4 : pyUpper raw ∉ (["UP", "DOWN", "LEFT", "RIGHT"] : List String) := by
      intro hm
      apply hnot
      simp only [List.mem_cons, List.not_mem_nil, or_false] at hm ⊢
      tauto
    have h5 : pyUpper raw ≠ "STOP" := fun hm => hnot (by simp [hm])
    unfold user_input_step
    rw [if_neg (by simpa using h4), if_neg (by simpa using h5)]

theorem C5_move_validation_witness :
    pyUpper "up" ∈ (["UP", "DOWN", "LEFT", "RIGHT"] : List String) ∧
    user_input_step "TestLobby" "Player1" "up" =
      { published := some ("games/TestLobby/Player1/move", pyUpper "up"),
        exitsLoop := false, rejected := false } :=
  ⟨by decide, (C5_move_validation "TestLobby" "Player1" "up").1 (by decide)⟩

/-- C7: on the `STOP` token the loop publishes `"STOP"` on the lobby-wide
control topic `games/{lobby}/start` — a topic distinct from the player's
move topic — and breaks out of the loop. -/
theorem C7_stop_publishes_lobby_control (lobby player raw : String)
    (h : pyUpper raw = "STOP") :
    user_input_step lobby player raw =
      { published := some ("games/" ++ lobby ++ "/start", "STOP"),
        exitsLoop := true, rejected := false } ∧
    "games/" ++ lobby ++ "/start" ≠
      "games/" ++ lobby ++ "/" ++ player ++ "/move" := by
  constructor
  · unfold user_input_step
    rw [if_neg (by rw [h]; decide), if_pos (by simp [h])]
  · exact start_ne_move lobby player

theorem C7_stop_publishes_lobby_control_witness :
    pyUpper "STOP" = "STOP" ∧
    user_input_step "TestLobby" "Player1" "STOP" =
      { published := some ("games/TestLobby/start", "STOP"),
        exitsLoop := true, rejected := false } :=
  ⟨by decide,
    (C7_stop_publishes_lobby_control "TestLobby" "Player1" "STOP" (by decide)).1⟩

/-- C3 counterexample: a message on a `game_state` topic whose payload does
not parse (`json.loads` raises) makes the handler itself raise — `on_message`
has no `try`/`except`, so the malformed-payload error propagates out of the
handler instead of being reported and dropped. -/
theorem C3_parse_failure_escapes_counterexample :
    on_message "games/TestLobby/Player1/game_state" none "not json" =
      .error .valueError := rfl

/-- C3 (amended): only shape errors are recovered. Whenever the payload does
parse to some JSON value — however malformed in shape — the handler returns
normally: `process_game_state` converts every failure into a printed error
report. A payload that fails JSON parsing, by contrast, raises out of
`on_message` (the counterexample above). -/
theorem C3_shape_errors_recovered_amended (topic payload : String) (v : Jval)
    (h : strContains topic "game_state" = true) :
    on_message topic (some v) payload =
      .ok (.stateRendered (process_game_state v)) := by
  unfold on_message
  rw [if_pos h]

theorem C3_shape_errors_recovered_witness :
    strContains "games/TestLobby/Player1/game_state" "game_state" = true ∧
    on_message "games/TestLobby/Player1/game_state" (some (.arr [])) "[]" =
      .ok (.stateRendered (process_game_state (.arr []))) :=
  ⟨by decide,
    C3_shape_errors_recovered_amended "games/TestLobby/Player1/game_state"
      "[]" (.arr []) (by decide)⟩

/-! ## Claim theorems: topic matching and routing -/

theorem isPrefixOf_self (l : List Char) : l.isPrefixOf l = true := by
  induction l with
  | nil => rfl
  | cons a l ih => simp [List.isPrefixOf, ih]

theorem charsContain_refl (l : List Char) : charsContain l l = true := by
  cases l with
  | nil => rfl
  | cons a t =>
    unfold charsContain
    rw [isPrefixOf_self]
    rfl

theorem charsContain_append_left (t₁ t₂ sub : List Char)
    (h : charsContain t₂ sub = true) : charsContain (t₁ ++ t₂) sub = true := by
  induction t₁ with
  | nil => exact h
  | cons c t ih =>
    rw [List.cons_append]
    unfold charsContain
    rw [ih, Bool.or_true]

theorem strContains_self (s : String) : strContains s s = true :=
  charsContain_refl s.data

theorem strContains_append_left (a b sub : String)
    (h : strContains b sub = true) : strContains (a ++ b) sub = true := by
  unfold strContains at h ⊢
  rw [str_data_append]
  exact charsContain_append_left a.data b.data sub.data h

/-- `on_message` routes exactly as `dispatchRoute` decides. -/
theorem on_message_routes (topic payload : String) (parsed : Option Jval) :
    on_message topic parsed payload =
      match dispatchRoute topic with
      | .stateHandler =>
        match parsed with
        | some v => .ok (.stateRendered (process_game_state v))
        | none => .error .valueError
      | .scoreHandler => .ok (.printScores payload)
      | .genericHandler => .ok (.printGeneric payload) := by
  unfold on_message dispatchRoute
  by_cases h1 : strContains topic "game_state" = true
  · rw [if_pos h1, if_pos h1]
  · rw [if_neg h1, if_neg h1]
    by_cases h2 : strContains topic "scores" = true
    · rw [if_pos h2, if_pos h2]
    · rw [if_neg h2, if_neg h2]

/-- C4: topic matching and routing. `games/TestLobby/lobby` matches only the
lobby subscription filter and is handled by the generic print path;
`games/TestLobby/P/game_state` matches the wildcard state filter for every
non-empty segment `P` and is routed by `on_message` to the state handler;
a topic with an extra segment matches none of the registered filters, so the
broker never delivers it. (Broker-side filter matching is modelled from the
spec, the broker being external to the client source.) -/
theorem C4_topic_routing (P Q : String) (hP : P ≠ "") :
    (segMatch ["games", "TestLobby", "lobby"]
        ["games", "TestLobby", "lobby"] = true ∧
     segMatch ["games", "TestLobby", "+", "game_state"]
        ["games", "TestLobby", "lobby"] = false ∧
     segMatch ["games", "TestLobby", "scores"]
        ["games", "TestLobby", "lobby"] = false ∧
     dispatchRoute (joinTopic ["games", "TestLobby", "lobby"]) =
        .genericHandler) ∧
    (delivered "TestLobby" ["games", "TestLobby", P, "game_state"] = true ∧
     dispatchRoute (joinTopic ["games", "TestLobby", P, "game_state"]) =
        .stateHandler) ∧
    delivered "TestLobby" ["games", "TestLobby", P, Q, "game_state"] = false := by
  refine ⟨⟨by decide, by decide, by decide, by decide⟩, ⟨?_, ?_⟩, ?_⟩
  · simp [delivered, subscriptions, segMatch, hP]
  · have htop : joinTopic ["games", "TestLobby", P, "game_state"] =
        ("games" ++ "/") ++ (("TestLobby" ++ "/") ++ ((P ++ "/") ++
          "game_state")) := rfl
    rw [htop]
    have hc : strContains (("games" ++ "/") ++ (("TestLobby" ++ "/") ++
        ((P ++ "/") ++ "game_state"))) "game_state" = true := by
      apply strContains_append_left
      apply strContains_append_left
      apply strContains_append_left
      exact strContains_self "game_state"
    unfold dispatchRoute
    rw [if_pos hc]
  · simp [delivered, subscriptions, segMatch]

theorem C4_topic_routing_witness :
    ("Player1" : String) ≠ "" ∧
    delivered "TestLobby" ["games", "TestLobby", "Player1", "game_state"] =
      true :=
  ⟨by decide, ((C4_topic_routing "Player1" "x" (by decide)).2.1).1⟩
